import Mathlib

/-!
Verification development for the consolidated-canonical processor
(`lib/cli_consolidatedcanonical.py`): an issue–enrichment consolidation
engine that merges canonical newspaper issues with per-content-item
language/OCR-quality enrichment records.

The Python module is embedded shallowly:

* JSON scalar values become `JValue` (null, string, boolean, number).
  Python dicts with string keys become association lists with unique keys;
  all dictionary operations below preserve key-uniqueness, and `dDel`
  removes every binding of a key so that list-level duplicates (which a
  Python dict can never contain) cannot resurface.
* A content item is modelled by the only member the code reads or writes,
  its metadata mapping `m` (`ci.get("m", {})` makes a missing member
  indistinguishable from an empty mapping, except that a missing member
  is never written back; both behave identically downstream).
* An issue is modelled by its scalar field mapping together with the
  content-item sequence stored under the `i` member; no other nesting is
  touched by the code.
* `sys.exit(1)` sites become `Except.error` values of `ProcError`; the
  distinct constructors/tags correspond to the distinct logged error
  conditions.  An uncaught Python exception (e.g. `re.match` applied to a
  non-string timestamp, which `run`'s blanket handler converts into
  `sys.exit(1)`) is modelled by `ProcError.unhandledException`.
* `datetime.strptime`, as used by `ensure_iso8601_z` with the formats
  `%Y-%m-%d %H:%M:%S` and `%Y-%m-%dT%H:%M:%S`, is embedded concretely:
  exactly four digits for `%Y`, one or two digits for `%m %d %H %M %S`,
  literal separators (`\s+` for a space in the format, with `T` also
  matching `t` because CPython compiles the format regex with IGNORECASE),
  a full-string match, and datetime range validation (year 1-9999, month
  1-12, day bounded by the month length with Gregorian leap years, hour
  0-23, minute/second 0-59).  Digits are restricted to ASCII: CPython's
  `\d` and `int` would also accept other Unicode decimal digits, an edge
  this development never relies on.  The anchor `$` of the pre-check
  regex `^\d\x7b4\x7d-...Z$` also matches before a final newline, but a
  string ending in `"Z\n"` falls through every `strptime` branch and is
  returned unchanged either way, so modelling `$` as end-of-string is
  extensionally faithful.
-/

namespace CCook

/-- A JSON scalar value as manipulated by the processor.  Composite values
(arrays/objects) appear in the data only at the places modelled
structurally below (the issue's `i` member, a content item's `m` member,
an enrichment record's `systems` member), so the value grammar for
individual fields is scalar. -/
inductive JValue where
  | null
  | str (s : String)
  | bool (b : Bool)
  | num (q : Rat)
deriving Repr, DecidableEq

/-- Python truthiness of a JSON scalar: `None`, `""`, `False` and `0` are
falsy, everything else truthy. -/
def truthyV : JValue → Bool
  | .null => false
  | .str s => s ≠ ""
  | .bool b => b
  | .num q => q ≠ 0

/-- Python truthiness of a `dict.get` result (missing key gives `None`). -/
def truthy : Option JValue → Bool
  | none => false
  | some v => truthyV v

/-- Lookup in an association list (Python `d.get(k)` / `d[k]`). -/
def dGet {κ α : Type} [DecidableEq κ] : List (κ × α) → κ → Option α
  | [], _ => none
  | (k', v) :: rest, k => if k' = k then some v else dGet rest k

/-- Key-membership test (Python `k in d`). -/
def dHas {κ α : Type} [DecidableEq κ] (m : List (κ × α)) (k : κ) : Bool :=
  (dGet m k).isSome

/-- Update/insert (Python `d[k] = v`): replaces the binding in place when
the key is present, otherwise appends (Python dicts keep insertion
order). -/
def dSet {κ α : Type} [DecidableEq κ] : List (κ × α) → κ → α → List (κ × α)
  | [], k, v => [(k, v)]
  | (k', v') :: rest, k, v =>
      if k' = k then (k, v) :: rest else (k', v') :: dSet rest k v

/-- Deletion (Python `del d[k]` / `d.pop(k)`): removes every binding of
the key, which on a unique-key list is exactly the single binding. -/
def dDel {κ α : Type} [DecidableEq κ] : List (κ × α) → κ → List (κ × α)
  | [], _ => []
  | (k', v) :: rest, k =>
      if k' = k then dDel rest k else (k', v) :: dDel rest k

/-- A Python dict of JSON scalars (a content item's metadata mapping, or
an issue's scalar fields). -/
abbrev Metadata := List (String × JValue)

theorem dGet_dSet_self {κ α : Type} [DecidableEq κ] (m : List (κ × α)) (k : κ) (v : α) :
    dGet (dSet m k v) k = some v := by
  induction m with
  | nil => simp [dGet, dSet]
  | cons hd tl ih =>
    obtain ⟨k', v'⟩ := hd
    by_cases h : k' = k <;> simp [dGet, dSet, h, ih]

theorem dGet_dSet_ne {κ α : Type} [DecidableEq κ] (m : List (κ × α)) (k k' : κ) (v : α)
    (h : k' ≠ k) : dGet (dSet m k v) k' = dGet m k' := by
  induction m with
  | nil => simp [dGet, dSet, Ne.symm h]
  | cons hd tl ih =>
    obtain ⟨k₀, v₀⟩ := hd
    by_cases h₀ : k₀ = k
    · subst h₀
      simp [dGet, dSet, Ne.symm h]
    · simp only [dSet, if_neg h₀]
      by_cases h₁ : k₀ = k' <;> simp [dGet, h₁, ih]

theorem dGet_dDel_self {κ α : Type} [DecidableEq κ] (m : List (κ × α)) (k : κ) :
    dGet (dDel m k) k = none := by
  induction m with
  | nil => simp [dGet, dDel]
  | cons hd tl ih =>
    obtain ⟨k₀, v₀⟩ := hd
    by_cases h₀ : k₀ = k <;> simp [dGet, dDel, h₀, ih]

theorem dGet_dDel_ne {κ α : Type} [DecidableEq κ] (m : List (κ × α)) (k k' : κ)
    (h : k' ≠ k) : dGet (dDel m k) k' = dGet m k' := by
  induction m with
  | nil => simp [dDel]
  | cons hd tl ih =>
    obtain ⟨k₀, v₀⟩ := hd
    by_cases h₀ : k₀ = k
    · subst h₀
      simp [dGet, dDel, Ne.symm h, ih]
    · by_cases h₁ : k₀ = k' <;> simp [dGet, dDel, h₀, h₁, h, ih]

/-! ## Timestamp normalization (`ensure_iso8601_z`) -/

/-- Whitespace characters matched by CPython's `\s` on ASCII input
(`strptime` turns a space in the format into `\s+`). -/
def pyIsSpace (c : Char) : Bool :=
  c = ' ' || c = '\t' || c = '\n' || c = '\r' || c = '\x0b' || c = '\x0c'

/-- Numeric value of an ASCII digit character. -/
def digitVal (c : Char) : Nat := c.toNat - 48

/-- Exactly four digits, as `strptime`'s `%Y` demands. -/
def readDigits4 : List Char → Option (Nat × List Char)
  | a :: b :: c :: d :: rest =>
      if a.isDigit && b.isDigit && c.isDigit && d.isDigit then
        some (((digitVal a * 10 + digitVal b) * 10 + digitVal c) * 10 + digitVal d, rest)
      else none
  | _ => none

/-- One or two digits, greedily, as `strptime`'s `%m %d %H %M %S` demand.
Greediness without backtracking is exact here: every digit group in the
two formats is followed by a non-digit token (or the end-of-input check),
so a parse that fails after a greedy two-digit read also fails after a
one-digit read. -/
def readDigits12 : List Char → Option (Nat × List Char)
  | a :: b :: rest =>
      if a.isDigit then
        if b.isDigit then some (digitVal a * 10 + digitVal b, rest)
        else some (digitVal a, b :: rest)
      else none
  | [a] => if a.isDigit then some (digitVal a, []) else none
  | [] => none

/-- A single literal character. -/
def readLit (c : Char) : List Char → Option (List Char)
  | x :: rest => if x = c then some rest else none
  | [] => none

/-- One or more whitespace characters (`\s+`, from the space in the
format `%Y-%m-%d %H:%M:%S`); greedy, and exact because the next token is
a digit. -/
def readSpaces1 : List Char → Option (List Char)
  | x :: rest => if pyIsSpace x then some (rest.dropWhile pyIsSpace) else none
  | [] => none

/-- The literal `T` of `%Y-%m-%dT%H:%M:%S`; CPython compiles the
`strptime` regex with IGNORECASE, so a lowercase `t` matches too. -/
def readLitT : List Char → Option (List Char)
  | x :: rest => if x = 'T' || x = 't' then some rest else none
  | [] => none

/-- The six fields parsed out of a timestamp string. -/
structure DateTime6 where
  year : Nat
  month : Nat
  day : Nat
  hour : Nat
  minute : Nat
  second : Nat
deriving Repr, DecidableEq

/-- Gregorian leap-year rule, as used by `datetime`. -/
def isLeapYear (y : Nat) : Bool :=
  y % 4 = 0 && (y % 100 ≠ 0 || y % 400 = 0)

/-- Length of a month, as used by `datetime`. -/
def daysInMonth (y m : Nat) : Nat :=
  if m = 2 then (if isLeapYear y then 29 else 28)
  else if m = 4 || m = 6 || m = 9 || m = 11 then 30
  else 31

/-- The range checks the `datetime` constructor performs on the parsed
fields (`datetime.strptime` raises `ValueError` outside them). -/
def validDateTime (dt : DateTime6) : Bool :=
  1 ≤ dt.year && dt.year ≤ 9999 &&
  1 ≤ dt.month && dt.month ≤ 12 &&
  1 ≤ dt.day && dt.day ≤ daysInMonth dt.year dt.month &&
  dt.hour ≤ 23 && dt.minute ≤ 59 && dt.second ≤ 59

/-- `datetime.strptime(s, fmt)` for the two fixed formats of the module,
parameterised by the date/time separator; the whole string must be
consumed and the fields must pass the `datetime` range checks. -/
def strptimeWith (sep : List Char → Option (List Char)) (s : String) : Option DateTime6 := do
  let (y, r0) ← readDigits4 s.toList
  let r1 ← readLit '-' r0
  let (mo, r2) ← readDigits12 r1
  let r3 ← readLit '-' r2
  let (d, r4) ← readDigits12 r3
  let r5 ← sep r4
  let (h, r6) ← readDigits12 r5
  let r7 ← readLit ':' r6
  let (mi, r8) ← readDigits12 r7
  let r9 ← readLit ':' r8
  let (sec, r10) ← readDigits12 r9
  if r10 = [] then
    let dt : DateTime6 := ⟨y, mo, d, h, mi, sec⟩
    if validDateTime dt then some dt else none
  else none

/-- `datetime.strptime(ts, "%Y-%m-%d %H:%M:%S")`. -/
def strptimeSpace (s : String) : Option DateTime6 := strptimeWith readSpaces1 s

/-- `datetime.strptime(ts, "%Y-%m-%dT%H:%M:%S")`. -/
def strptimeT (s : String) : Option DateTime6 := strptimeWith readLitT s

/-- Two-digit zero padding, as `strftime`'s `%m %d %H %M %S` produce. -/
def pad2 (n : Nat) : String :=
  if n < 10 then "0" ++ toString n else toString n

/-- Four-digit zero padding for `%Y` (every year parsed here came from a
four-digit group, so padding differences between platforms for years
below 1000 never show in a parse-then-format round trip of a four-digit
year; we format with padding). -/
def pad4 (n : Nat) : String :=
  if n < 10 then "000" ++ toString n
  else if n < 100 then "00" ++ toString n
  else if n < 1000 then "0" ++ toString n
  else toString n

/-- `dt.strftime("%Y-%m-%dT%H:%M:%SZ")`. -/
def formatZ (dt : DateTime6) : String :=
  pad4 dt.year ++ "-" ++ pad2 dt.month ++ "-" ++ pad2 dt.day ++ "T" ++
  pad2 dt.hour ++ ":" ++ pad2 dt.minute ++ ":" ++ pad2 dt.second ++ "Z"

/-- The pre-check regex of `ensure_iso8601_z`: the string consists of
exactly 4-2-2 digit groups separated by hyphens, a literal `T`, 2-2-2
digit groups separated by colons, and a final literal `Z`.  (The digit
values are not range-checked: this mirrors the regex, which accepts e.g.
month 99.) -/
def matchesZPattern (s : String) : Bool :=
  match s.toList with
  | [y1, y2, y3, y4, a1, m1, m2, a2, d1, d2, t, h1, h2, a3, n1, n2, a4, s1, s2, z] =>
      y1.isDigit && y2.isDigit && y3.isDigit && y4.isDigit && a1 = '-' &&
      m1.isDigit && m2.isDigit && a2 = '-' && d1.isDigit && d2.isDigit &&
      t = 'T' && h1.isDigit && h2.isDigit && a3 = ':' && n1.isDigit &&
      n2.isDigit && a4 = ':' && s1.isDigit && s2.isDigit && z = 'Z'
  | _ => false

/-- `ensure_iso8601_z`: keep a string already matching the canonical
pattern; otherwise try the space-separated format, then the `T`-separated
format, reformatting on success; otherwise return the input unchanged. -/
def ensure_iso8601_z (ts : String) : String :=
  if ts = "" then ts
  else if matchesZPattern ts then ts
  else
    match strptimeSpace ts with
    | some dt => formatZ dt
    | none =>
      match strptimeT ts with
      | some dt => formatZ dt
      | none => ts

/-! ## Error taxonomy

Every fatal condition in the module is a `sys.exit(1)` with a distinct
log message; the constructors (and the tag of `missingRequiredField`)
mirror those distinct sites, following the names of the spec's error
taxonomy. -/

/-- The fatal error conditions of the processor. -/
inductive ProcError where
  | missingRequiredField (field : String)
  | missingEnrichment
  | noEnrichmentData
  | malformedInput
  | validationFailure
  | unhandledException
deriving Repr, DecidableEq

/-- Tag used by the `missingRequiredField` error raised when an issue has
neither a truthy `ts` nor a truthy `cdt`. -/
def tsField : String := "ts/cdt"

/-- Tag used by the `missingRequiredField` error raised when a content
item's metadata has no truthy `id`. -/
def idField : String := "id"

/-- Tag used by the `missingRequiredField` error raised when an
enrichment line has no truthy `id`. -/
def enrichIdField : String := "enrichment id"

/-! ## Enrichment records and the enrichment index -/

/-- One enrichment record as stored in the index: the six members
`load_enrichments` extracts with `data.get`, where a missing member is
indistinguishable from a null one (`dict.get` returns `None` for both). -/
structure Enrichment where
  lg : JValue
  ocrqa : JValue
  len : JValue
  lg_decision : JValue
  systems : Metadata
  alphabetical_ratio : JValue
deriving Repr, DecidableEq

/-- One parsed line of the enrichment stream: its scalar members, plus
the `systems` member (an object) stored structurally when present. -/
structure EnrichLine where
  fields : Metadata
  systems : Option Metadata
deriving Repr, DecidableEq

/-- Builds the stored record from a parsed line (`data.get(k)` for the
scalars, `data.get("systems", \x7b\x7d)` for the mapping). -/
def mkEnrichment (ln : EnrichLine) : Enrichment where
  lg := (dGet ln.fields "lg").getD .null
  ocrqa := (dGet ln.fields "ocrqa").getD .null
  len := (dGet ln.fields "len").getD .null
  lg_decision := (dGet ln.fields "lg_decision").getD .null
  systems := ln.systems.getD []
  alphabetical_ratio := (dGet ln.fields "alphabetical_ratio").getD .null

/-- The in-memory enrichment index, keyed by the JSON value of each
line's `id` member (in practice a string). -/
abbrev EnrichIndex := List (JValue × Enrichment)

/-- The accumulating loop of `load_enrichments`: each line must carry a
truthy `id`, and `enrichments[ci_id] = ...` overwrites silently. -/
def load_enrichments_from (acc : EnrichIndex) : List EnrichLine → Except ProcError EnrichIndex
  | [] => .ok acc
  | ln :: rest =>
    match dGet ln.fields "id" with
    | none => .error (.missingRequiredField enrichIdField)
    | some idv =>
      if truthyV idv then load_enrichments_from (dSet acc idv (mkEnrichment ln)) rest
      else .error (.missingRequiredField enrichIdField)

/-- `load_enrichments`, over the already-parsed non-blank lines of the
enrichment stream (JSON decoding errors are the separate
`MalformedInput` condition, raised by the surrounding reader). -/
def load_enrichments (lines : List EnrichLine) : Except ProcError EnrichIndex :=
  load_enrichments_from [] lines

/-! ## Content items and issues -/

/-- A content item, modelled by its `m` member (the metadata mapping);
`none` is a missing member, read back as the empty mapping. -/
structure ContentItem where
  m : Option Metadata
deriving Repr, DecidableEq

/-- `ci.get("m", \x7b\x7d)`. -/
def ContentItem.meta (ci : ContentItem) : Metadata := ci.m.getD []

/-- An issue: its scalar fields, and the content-item sequence stored
under the `i` member (`none` when the member is absent). -/
structure Issue where
  fields : Metadata
  items : Option (List ContentItem)
deriving Repr, DecidableEq

/-- `issue_data.get("i", [])`. -/
def Issue.contentItems (iss : Issue) : List ContentItem := iss.items.getD []

/-! ## Content-item consolidation -/

/-- The matching policy of the spec.  The source file under `src/`
implements only the flexible policy; see `consolidate_content_item_p`. -/
inductive MatchingPolicy where
  | strict
  | flexible
deriving Repr, DecidableEq

/-- The fixed list of optional string-valued content-item fields pruned
when absent-or-blank. -/
def optional_string_fields : List String := ["t", "iiif_link", "var_t", "archival_note"]

/-- The fixed list of optional issue-level fields pruned under the same
rule. -/
def optional_issue_fields : List String :=
  ["s", "n", "media_title_variant", "iiif_manifest_uri", "rc", "rp"]

/-- A string is blank when `value.strip() == ""`, i.e. every character is
whitespace. -/
def isBlankStr (s : String) : Bool := s.toList.all pyIsSpace

/-- The prune condition used at both the content-item and the issue
level: `value is None or (isinstance(value, str) and value.strip() == "")`. -/
def isPrunableValue : JValue → Bool
  | .null => true
  | .str s => isBlankStr s
  | _ => false

/-- Removes one field when it is present with a prunable value. -/
def pruneField (m : Metadata) (f : String) : Metadata :=
  match dGet m f with
  | some v => if isPrunableValue v then dDel m f else m
  | none => m

/-- Removes every listed field that is present with a prunable value. -/
def pruneFields (fs : List String) (m : Metadata) : Metadata :=
  fs.foldl pruneField m

/-- The content-item prune pass (step over `optional_string_fields`). -/
def pruneCI (m : Metadata) : Metadata := pruneFields optional_string_fields m

/-- The issue-level prune pass (step over `optional_issue_fields`). -/
def pruneIssue (m : Metadata) : Metadata := pruneFields optional_issue_fields m

/-- The legacy language-key rename: `lg` is popped into `lg_original`
when present; otherwise the single-letter `l` is popped into
`lg_original`; otherwise nothing happens. -/
def renameLg (m : Metadata) : Metadata :=
  match dGet m "lg" with
  | some v => dSet (dDel m "lg") "lg_original" v
  | none =>
    match dGet m "l" with
    | some v => dSet (dDel m "l") "lg_original" v
    | none => m

/-- The four fields added when an enrichment record matches. -/
def consolidatedKeys : List String :=
  ["consolidated_lg", "consolidated_ocrqa", "consolidated_char_len",
   "consolidated_langident_run_id"]

/-- Adds the consolidated fields from a matching enrichment record, in
source order. -/
def addConsolidated (runId : String) (e : Enrichment) (m : Metadata) : Metadata :=
  dSet (dSet (dSet (dSet m "consolidated_lg" e.lg)
    "consolidated_ocrqa" e.ocrqa)
    "consolidated_char_len" e.len)
    "consolidated_langident_run_id" (.str runId)

/-- `consolidate_content_item`, parameterised by the matching policy.
The steps and their order are those of the source function: require a
truthy `id`; prune the optional string fields; rename the legacy
language key; stop for images; look the `id` up in the index; on a hit
add the consolidated fields.

Modelled from the spec: the `strict` branch of the index miss.  The spec
describes sibling processing variants (one of them strict) of which only
the flexible one is included under `src/`; on an index miss the strict
policy fails the run with a MissingEnrichment error where the flexible
policy (the `src/` code, lines 322-328) returns the metadata unchanged. -/
def consolidate_content_item_p (pol : MatchingPolicy) (runId : String)
    (enr : EnrichIndex) (m0 : Metadata) : Except ProcError Metadata :=
  match dGet m0 "id" with
  | none => .error (.missingRequiredField idField)
  | some idv =>
    if truthyV idv then
      let m1 := pruneCI m0
      let m2 := renameLg m1
      if dGet m2 "tp" = some (.str "image") then .ok m2
      else
        match dGet enr idv with
        | none =>
          match pol with
          | .flexible => .ok m2
          | .strict => .error .missingEnrichment
        | some e => .ok (addConsolidated runId e m2)
    else .error (.missingRequiredField idField)

/-- The source's `consolidate_content_item` (flexible matching). -/
def consolidate_content_item (runId : String) (enr : EnrichIndex)
    (m0 : Metadata) : Except ProcError Metadata :=
  consolidate_content_item_p .flexible runId enr m0

/-! ## Issue consolidation -/

/-- The olr-inference loop over the content items, literally: the two
flags are set by the first item of type `article` (breaking with the
article flag) or `page` (breaking with the page flag). -/
def olrFlags : List ContentItem → Bool × Bool
  | [] => (false, false)
  | ci :: rest =>
    if dGet ci.meta "tp" = some (.str "article") then (true, false)
    else if dGet ci.meta "tp" = some (.str "page") then (false, true)
    else olrFlags rest

/-- The inferred olr value: article flag wins, then the page flag forces
`false`, otherwise the default `true`. -/
def olrInfer (items : List ContentItem) : Bool :=
  let fl := olrFlags items
  if fl.1 then true else if fl.2 then false else true

/-- `issue_data.get("ts") or issue_data.get("cdt")`, followed by the
`if not original_ts` check: the original timestamp is the `ts` value
when truthy, else the `cdt` value when truthy, else nothing. -/
def origTimestamp (fs : Metadata) : Option JValue :=
  let o : Option JValue :=
    match dGet fs "ts" with
    | some v => if truthyV v then some v else dGet fs "cdt"
    | none => dGet fs "cdt"
  match o with
  | some v => if truthyV v then some v else none
  | none => none

/-- The timestamp bookkeeping on the issue's fields (source lines
397-402): set `consolidated`, preserve the normalized original timestamp,
overwrite `ts` with the processing timestamp, drop `cdt` if present. -/
def issueFieldsAfterTs (nowTs : String) (origStr : String) (fs : Metadata) : Metadata :=
  let f1 := dSet fs "consolidated" (.bool true)
  let f2 := dSet f1 "consolidated_ts_original" (.str (ensure_iso8601_z origStr))
  let f3 := dSet f2 "ts" (.str nowTs)
  if dHas f3 "cdt" then dDel f3 "cdt" else f3

/-- The olr step: infer only when the field is absent. -/
def olrStep (items : List ContentItem) (fs : Metadata) : Metadata :=
  if dHas fs "olr" then fs else dSet fs "olr" (.bool (olrInfer items))

/-- The delegation loop over the content items: an item whose metadata
mapping is empty (`if ci_metadata:`) is passed over; otherwise its
metadata is replaced by the consolidator's result (the Python code
mutates the mapping in place). -/
def consolidateItems_p (pol : MatchingPolicy) (runId : String) (enr : EnrichIndex) :
    List ContentItem → Except ProcError (List ContentItem)
  | [] => .ok []
  | ci :: rest =>
    if ci.meta = [] then
      match consolidateItems_p pol runId enr rest with
      | .error e => .error e
      | .ok rest' => .ok (ci :: rest')
    else
      match consolidate_content_item_p pol runId enr ci.meta with
      | .error e => .error e
      | .ok m' =>
        match consolidateItems_p pol runId enr rest with
        | .error e => .error e
        | .ok rest' => .ok (ContentItem.mk (some m') :: rest')

/-- `process_issue`, parameterised by the matching policy of the
delegated consolidator (the `src/` code is the flexible instance): prune
the optional issue fields; take the original timestamp (`ts` preferred
over `cdt` by truthiness, error when neither is truthy); normalize it
(`re.match` inside `ensure_iso8601_z` raises on a non-string value,
which the driver's blanket handler turns into an exit); set the
bookkeeping fields; infer `olr` when absent; delegate every non-empty
content-item metadata. -/
def process_issue_p (pol : MatchingPolicy) (runId : String) (nowTs : String)
    (enr : EnrichIndex) (iss : Issue) : Except ProcError Issue :=
  let fs0 := pruneIssue iss.fields
  match origTimestamp fs0 with
  | none => .error (.missingRequiredField tsField)
  | some ov =>
    match ov with
    | .str origStr =>
      let fs1 := olrStep iss.contentItems (issueFieldsAfterTs nowTs origStr fs0)
      match consolidateItems_p pol runId enr iss.contentItems with
      | .error e => .error e
      | .ok items' => .ok ⟨fs1, iss.items.map (fun _ => items')⟩
    | _ => .error .unhandledException

/-- The source's `process_issue` (flexible matching). -/
def process_issue (runId : String) (nowTs : String) (enr : EnrichIndex)
    (iss : Issue) : Except ProcError Issue :=
  process_issue_p .flexible runId nowTs enr iss

/-! ## Pipeline driver -/

/-- The issue loop of `run`: each issue is consolidated and its output
line written immediately; the first fatal error aborts the run, leaving
the lines already written. -/
def driveIssues (step : Issue → Except ProcError Issue) :
    List Issue → List Issue × Option ProcError
  | [] => ([], none)
  | iss :: rest =>
    match step iss with
    | .error e => ([], some e)
    | .ok out =>
      let r := driveIssues step rest
      (out :: r.1, r.2)

/-- The exit code of the process: `0` on success, the `sys.exit(1)` code
on any fatal condition. -/
def exitCode : Option ProcError → Nat
  | none => 0
  | some _ => 1

/-- The whole run: build the index (fatal if empty), then stream the
issues. -/
def runPipeline (pol : MatchingPolicy) (runId : String) (nowTs : String)
    (enrLines : List EnrichLine) (issues : List Issue) :
    List Issue × Option ProcError :=
  match load_enrichments enrLines with
  | .error e => ([], some e)
  | .ok enr =>
    if enr = [] then ([], some .noEnrichmentData)
    else driveIssues (process_issue_p pol runId nowTs enr) issues

/-! ## Supporting lemmas -/

instance {ε α : Type} [DecidableEq ε] [DecidableEq α] : DecidableEq (Except ε α) := fun x y =>
  match x, y with
  | .ok a, .ok b =>
    if h : a = b then isTrue (congrArg Except.ok h)
    else isFalse (fun hh => h (Except.ok.inj hh))
  | .error a, .error b =>
    if h : a = b then isTrue (congrArg Except.error h)
    else isFalse (fun hh => h (Except.error.inj hh))
  | .ok _, .error _ => isFalse (fun hh => Except.noConfusion hh)
  | .error _, .ok _ => isFalse (fun hh => Except.noConfusion hh)

theorem dGet_pruneField_ne (m : Metadata) (f k : String) (h : k ≠ f) :
    dGet (pruneField m f) k = dGet m k := by
  unfold pruneField
  match dGet m f with
  | none => rfl
  | some v =>
    by_cases hp : isPrunableValue v = true
    · simp only [hp, if_true]
      exact dGet_dDel_ne m f k h
    · simp [hp]

theorem dGet_pruneFields_ne (fs : List String) (m : Metadata) (k : String)
    (h : k ∉ fs) : dGet (pruneFields fs m) k = dGet m k := by
  induction fs generalizing m with
  | nil => rfl
  | cons f rest ih =>
    simp only [List.mem_cons, not_or] at h
    show dGet (pruneFields rest (pruneField m f)) k = dGet m k
    rw [ih (pruneField m f) h.2, dGet_pruneField_ne m f k h.1]

theorem dGet_renameLg_ne (m : Metadata) (k : String)
    (h1 : k ≠ "lg") (h2 : k ≠ "l") (h3 : k ≠ "lg_original") :
    dGet (renameLg m) k = dGet m k := by
  unfold renameLg
  match dGet m "lg" with
  | some v => rw [dGet_dSet_ne _ _ _ _ h3, dGet_dDel_ne _ _ _ h1]
  | none =>
    match dGet m "l" with
    | some v => rw [dGet_dSet_ne _ _ _ _ h3, dGet_dDel_ne _ _ _ h2]
    | none => rfl

theorem dGet_addConsolidated_ne (runId : String) (e : Enrichment) (m : Metadata)
    (k : String) (h : ¬ k ∈ consolidatedKeys) :
    dGet (addConsolidated runId e m) k = dGet m k := by
  simp only [consolidatedKeys, List.mem_cons, List.not_mem_nil, or_false, not_or] at h
  obtain ⟨h1, h2, h3, h4⟩ := h
  unfold addConsolidated
  rw [dGet_dSet_ne _ _ _ _ h4, dGet_dSet_ne _ _ _ _ h3,
    dGet_dSet_ne _ _ _ _ h2, dGet_dSet_ne _ _ _ _ h1]

theorem dGet_issueFieldsAfterTs_ne (nowTs origStr : String) (fs : Metadata) (k : String)
    (h1 : k ≠ "consolidated") (h2 : k ≠ "consolidated_ts_original")
    (h3 : k ≠ "ts") (h4 : k ≠ "cdt") :
    dGet (issueFieldsAfterTs nowTs origStr fs) k = dGet fs k := by
  simp only [issueFieldsAfterTs]
  split
  · rw [dGet_dDel_ne _ _ _ h4, dGet_dSet_ne _ _ _ _ h3,
      dGet_dSet_ne _ _ _ _ h2, dGet_dSet_ne _ _ _ _ h1]
  · rw [dGet_dSet_ne _ _ _ _ h3, dGet_dSet_ne _ _ _ _ h2, dGet_dSet_ne _ _ _ _ h1]

theorem dGet_issueFieldsAfterTs_consolidated (nowTs origStr : String) (fs : Metadata) :
    dGet (issueFieldsAfterTs nowTs origStr fs) "consolidated" = some (.bool true) := by
  simp only [issueFieldsAfterTs]
  split
  · rw [dGet_dDel_ne _ _ _ (by decide), dGet_dSet_ne _ _ _ _ (by decide),
      dGet_dSet_ne _ _ _ _ (by decide), dGet_dSet_self]
  · rw [dGet_dSet_ne _ _ _ _ (by decide), dGet_dSet_ne _ _ _ _ (by decide), dGet_dSet_self]

theorem dGet_issueFieldsAfterTs_tsOriginal (nowTs origStr : String) (fs : Metadata) :
    dGet (issueFieldsAfterTs nowTs origStr fs) "consolidated_ts_original"
      = some (.str (ensure_iso8601_z origStr)) := by
  simp only [issueFieldsAfterTs]
  split
  · rw [dGet_dDel_ne _ _ _ (by decide), dGet_dSet_ne _ _ _ _ (by decide), dGet_dSet_self]
  · rw [dGet_dSet_ne _ _ _ _ (by decide), dGet_dSet_self]

theorem dGet_issueFieldsAfterTs_ts (nowTs origStr : String) (fs : Metadata) :
    dGet (issueFieldsAfterTs nowTs origStr fs) "ts" = some (.str nowTs) := by
  simp only [issueFieldsAfterTs]
  split
  · rw [dGet_dDel_ne _ _ _ (by decide), dGet_dSet_self]
  · rw [dGet_dSet_self]

theorem dGet_issueFieldsAfterTs_cdt (nowTs origStr : String) (fs : Metadata) :
    dGet (issueFieldsAfterTs nowTs origStr fs) "cdt" = none := by
  simp only [issueFieldsAfterTs]
  split
  · rw [dGet_dDel_self]
  · rename_i hc
    simp only [dHas] at hc
    exact Option.not_isSome_iff_eq_none.mp hc

theorem dGet_olrStep_ne (items : List ContentItem) (fs : Metadata) (k : String)
    (h : k ≠ "olr") : dGet (olrStep items fs) k = dGet fs k := by
  unfold olrStep
  split
  · rfl
  · rw [dGet_dSet_ne _ _ _ _ h]

theorem dGet_olrStep_present (items : List ContentItem) (fs : Metadata) (v : JValue)
    (h : dGet fs "olr" = some v) : dGet (olrStep items fs) "olr" = some v := by
  unfold olrStep
  have : dHas fs "olr" = true := by simp [dHas, h]
  simp [this, h]

theorem dGet_olrStep_absent (items : List ContentItem) (fs : Metadata)
    (h : dGet fs "olr" = none) :
    dGet (olrStep items fs) "olr" = some (.bool (olrInfer items)) := by
  unfold olrStep
  have : dHas fs "olr" = false := by simp [dHas, h]
  simp [this, dGet_dSet_self]

theorem origTimestamp_none_iff (fs : Metadata) :
    origTimestamp fs = none ↔
      truthy (dGet fs "ts") = false ∧ truthy (dGet fs "cdt") = false := by
  unfold origTimestamp truthy
  match hts : dGet fs "ts" with
  | some v =>
    by_cases hv : truthyV v = true
    · simp [hv]
    · simp only [Bool.not_eq_true] at hv
      simp only [hv, if_false, Bool.false_eq_true]
      match hcdt : dGet fs "cdt" with
      | some w =>
        by_cases hw : truthyV w = true <;> simp [hw]
      | none => simp
  | none =>
    match hcdt : dGet fs "cdt" with
    | some w =>
      by_cases hw : truthyV w = true <;> simp [hw]
    | none => simp

theorem origTimestamp_ts (fs : Metadata) (v : JValue)
    (h : dGet fs "ts" = some v) (hv : truthyV v = true) :
    origTimestamp fs = some v := by
  unfold origTimestamp
  simp [h, hv]

theorem origTimestamp_cdt (fs : Metadata) (v : JValue)
    (h : truthy (dGet fs "ts") = false) (hc : dGet fs "cdt" = some v)
    (hv : truthyV v = true) : origTimestamp fs = some v := by
  unfold origTimestamp
  match hts : dGet fs "ts" with
  | some w =>
    rw [hts] at h
    simp only [truthy] at h
    simp [h, hc, hv]
  | none => simp [hc, hv]

/-- The shape of a successful `process_issue_p` run: a truthy string
original timestamp was found, the delegation loop succeeded, and the
output is assembled from the ts/olr field steps and the delegated
items. -/
theorem process_ok_shape (pol : MatchingPolicy) (runId nowTs : String)
    (enr : EnrichIndex) (iss iss' : Issue)
    (h : process_issue_p pol runId nowTs enr iss = .ok iss') :
    ∃ origStr items',
      origTimestamp (pruneIssue iss.fields) = some (.str origStr) ∧
      consolidateItems_p pol runId enr iss.contentItems = .ok items' ∧
      iss' = ⟨olrStep iss.contentItems
              (issueFieldsAfterTs nowTs origStr (pruneIssue iss.fields)),
             iss.items.map (fun _ => items')⟩ := by
  simp only [process_issue_p] at h
  match horig : origTimestamp (pruneIssue iss.fields) with
  | none => rw [horig] at h; exact absurd h (by simp)
  | some ov =>
    rw [horig] at h
    match ov with
    | .str origStr =>
      match hdeleg : consolidateItems_p pol runId enr iss.contentItems with
      | .error e => rw [hdeleg] at h; exact absurd h (by simp)
      | .ok items' =>
        rw [hdeleg] at h
        exact ⟨origStr, items', rfl, rfl, (Except.ok.inj h).symm⟩
    | .null => exact absurd h (by simp)
    | .bool b => exact absurd h (by simp)
    | .num q => exact absurd h (by simp)

/-- The errors the per-item consolidator can produce. -/
theorem consolidate_content_item_error_shape (pol : MatchingPolicy)
    (runId : String) (enr : EnrichIndex) (m0 : Metadata) (e : ProcError)
    (h : consolidate_content_item_p pol runId enr m0 = .error e) :
    e = .missingRequiredField idField ∨ e = .missingEnrichment := by
  unfold consolidate_content_item_p at h
  match hid : dGet m0 "id" with
  | none => rw [hid] at h; exact Or.inl (Except.error.inj h).symm
  | some idv =>
    rw [hid] at h
    by_cases ht : truthyV idv = true
    · simp only [ht, if_true] at h
      split at h
      · exact absurd h (by simp)
      · match hl : dGet enr idv with
        | none =>
          rw [hl] at h
          match pol with
          | .flexible => exact absurd h (by simp)
          | .strict => exact Or.inr (Except.error.inj h).symm
        | some er => rw [hl] at h; exact absurd h (by simp)
    · simp only [Bool.not_eq_true] at ht
      simp only [ht, Bool.false_eq_true, if_false] at h
      exact Or.inl (Except.error.inj h).symm

/-- The errors the delegation loop can produce. -/
theorem consolidateItems_error_shape (pol : MatchingPolicy) (runId : String)
    (enr : EnrichIndex) (items : List ContentItem) (e : ProcError)
    (h : consolidateItems_p pol runId enr items = .error e) :
    e = .missingRequiredField idField ∨ e = .missingEnrichment := by
  induction items with
  | nil => exact absurd h (by simp [consolidateItems_p])
  | cons ci rest ih =>
    unfold consolidateItems_p at h
    by_cases hm : ci.meta = []
    · simp only [hm, if_true] at h
      match hr : consolidateItems_p pol runId enr rest with
      | .error e' =>
        rw [hr] at h
        have he : e' = e := Except.error.inj h
        subst he
        exact ih hr
      | .ok rest' => rw [hr] at h; exact absurd h (by simp)
    · simp only [hm, if_false] at h
      match hc : consolidate_content_item_p pol runId enr ci.meta with
      | .error e' =>
        rw [hc] at h
        have he : e' = e := Except.error.inj h
        subst he
        exact consolidate_content_item_error_shape pol runId enr ci.meta e' hc
      | .ok m' =>
        rw [hc] at h
        match hr : consolidateItems_p pol runId enr rest with
        | .error e' =>
          rw [hr] at h
          have he : e' = e := Except.error.inj h
          subst he
          exact ih hr
        | .ok rest' => rw [hr] at h; exact absurd h (by simp)

/-- Written from the spec's words (§4.3 step 5), for comparison with the
source's two-flag loop: scan the content items in sequence, stopping at
the first item of type `article` (flag true) or `page` (flag false);
default to true when neither type appears before the scan ends. -/
def olrSpec : List ContentItem → Bool
  | [] => true
  | ci :: rest =>
    if dGet ci.meta "tp" = some (.str "article") then true
    else if dGet ci.meta "tp" = some (.str "page") then false
    else olrSpec rest

/-- The source's flag-based inference computes exactly the spec's
first-match scan. -/
theorem olrInfer_eq_olrSpec (items : List ContentItem) :
    olrInfer items = olrSpec items := by
  induction items with
  | nil => rfl
  | cons ci rest ih =>
    unfold olrInfer olrFlags olrSpec
    by_cases ha : dGet ci.meta "tp" = some (.str "article")
    · simp [ha]
    · by_cases hp : dGet ci.meta "tp" = some (.str "page")
      · simp [ha, hp]
      · simp only [ha, hp, if_false]
        exact ih

/-- Unfolding one step of the enrichment-loading loop. -/
theorem load_enrichments_from_cons (acc : EnrichIndex) (ln : EnrichLine)
    (rest : List EnrichLine) :
    load_enrichments_from acc (ln :: rest) =
      match dGet ln.fields "id" with
      | none => .error (.missingRequiredField enrichIdField)
      | some idv =>
        if truthyV idv then load_enrichments_from (dSet acc idv (mkEnrichment ln)) rest
        else .error (.missingRequiredField enrichIdField) := rfl

/-- Splitting the enrichment-loading loop at an append. -/
theorem load_enrichments_from_append (acc : EnrichIndex) (xs ys : List EnrichLine) :
    load_enrichments_from acc (xs ++ ys) =
      match load_enrichments_from acc xs with
      | .ok acc' => load_enrichments_from acc' ys
      | .error e => .error e := by
  induction xs generalizing acc with
  | nil => rfl
  | cons ln rest ih =>
    rw [List.cons_append, load_enrichments_from_cons, load_enrichments_from_cons]
    match hid : dGet ln.fields "id" with
    | none => rfl
    | some idv =>
      by_cases ht : truthyV idv = true
      · simp only [ht, if_true]
        exact ih _
      · simp only [Bool.not_eq_true] at ht
        simp [ht]

/-- Lines whose `id` differs from a key leave that key's index entry
alone. -/
theorem load_enrichments_from_untouched (rest : List EnrichLine) (acc idx : EnrichIndex)
    (k : JValue) (h : load_enrichments_from acc rest = .ok idx)
    (hk : ∀ ln ∈ rest, dGet ln.fields "id" ≠ some k) :
    dGet idx k = dGet acc k := by
  induction rest generalizing acc with
  | nil =>
    unfold load_enrichments_from at h
    rw [Except.ok.inj h]
  | cons ln rest' ih =>
    unfold load_enrichments_from at h
    match hid : dGet ln.fields "id" with
    | none => rw [hid] at h; exact absurd h (by simp)
    | some idv =>
      rw [hid] at h
      by_cases ht : truthyV idv = true
      · simp only [ht, if_true] at h
        have hne : k ≠ idv := by
          intro hh
          exact hk ln (List.mem_cons_self ln rest') (hh ▸ hid)
        rw [ih _ h (fun l hl => hk l (List.mem_cons_of_mem ln hl)),
          dGet_dSet_ne _ _ _ _ hne]
      · simp only [Bool.not_eq_true] at ht
        simp only [ht, Bool.false_eq_true, if_false] at h
        exact absurd h (by simp)

/-- The shape of a successful delegation pass: each item with an empty
metadata mapping is passed through untouched, each other item's metadata
is replaced by the consolidator's successful result. -/
theorem consolidateItems_ok_shape (pol : MatchingPolicy) (runId : String)
    (enr : EnrichIndex) (items items' : List ContentItem)
    (h : consolidateItems_p pol runId enr items = .ok items') :
    List.Forall₂ (fun ci ci' =>
      (ci.meta = [] ∧ ci' = ci) ∨
      (ci.meta ≠ [] ∧ ∃ m', consolidate_content_item_p pol runId enr ci.meta = .ok m' ∧
        ci' = ContentItem.mk (some m'))) items items' := by
  induction items generalizing items' with
  | nil =>
    unfold consolidateItems_p at h
    rw [← Except.ok.inj h]
    exact List.Forall₂.nil
  | cons ci rest ih =>
    unfold consolidateItems_p at h
    by_cases hm : ci.meta = []
    · simp only [hm, if_true] at h
      match hr : consolidateItems_p pol runId enr rest with
      | .error e => rw [hr] at h; exact absurd h (by simp)
      | .ok rest' =>
        rw [hr] at h
        rw [← Except.ok.inj h]
        exact List.Forall₂.cons (Or.inl ⟨hm, rfl⟩) (ih rest' hr)
    · simp only [hm, if_false] at h
      match hc : consolidate_content_item_p pol runId enr ci.meta with
      | .error e => rw [hc] at h; exact absurd h (by simp)
      | .ok m' =>
        rw [hc] at h
        match hr : consolidateItems_p pol runId enr rest with
        | .error e => rw [hr] at h; exact absurd h (by simp)
        | .ok rest' =>
          rw [hr] at h
          rw [← Except.ok.inj h]
          exact List.Forall₂.cons (Or.inr ⟨hm, m', hc, rfl⟩) (ih rest' hr)

/-- Transfer of an issue-level field lookup through the prune and
timestamp steps, for the keys those steps never write. -/
theorem dGet_tsSteps (nowTs origStr : String) (f : Metadata) (k : String)
    (hk : ¬ k ∈ optional_issue_fields)
    (h1 : k ≠ "consolidated") (h2 : k ≠ "consolidated_ts_original")
    (h3 : k ≠ "ts") (h4 : k ≠ "cdt") :
    dGet (issueFieldsAfterTs nowTs origStr (pruneIssue f)) k = dGet f k := by
  rw [dGet_issueFieldsAfterTs_ne _ _ _ _ h1 h2 h3 h4, pruneIssue,
    dGet_pruneFields_ne _ _ _ hk]

/-! ## Concrete data used by witnesses and counterexamples -/

/-- A content item of type `page`. -/
def pageOnlyItem : ContentItem := ⟨some [("id", .str "p1"), ("tp", .str "page")]⟩

/-- A content item of type `article`. -/
def articleOnlyItem : ContentItem := ⟨some [("id", .str "a1"), ("tp", .str "article")]⟩

/-- A content item of type `image`. -/
def imageItem : ContentItem := ⟨some [("id", .str "im1"), ("tp", .str "image")]⟩

/-- An issue without `olr` whose content items are `[page, article]`, in
that order. -/
def issuePageArticle : Issue :=
  ⟨[("id", .str "iss-1"), ("ts", .str "2024-01-15T10:30:00Z")],
   some [pageOnlyItem, articleOnlyItem]⟩

/-- The consolidated form of `issuePageArticle` at run id `run-1` and
processing time `2025-06-01T00:00:00Z`. -/
def issuePageArticleOut : Issue :=
  ⟨[("id", .str "iss-1"), ("ts", .str "2025-06-01T00:00:00Z"),
    ("consolidated", .bool true),
    ("consolidated_ts_original", .str "2024-01-15T10:30:00Z"),
    ("olr", .bool false)],
   some [pageOnlyItem, articleOnlyItem]⟩

/-- An issue without `olr` whose content items are `[image, image]`. -/
def issueImages : Issue :=
  ⟨[("id", .str "iss-2"), ("ts", .str "2024-01-15T10:30:00Z")],
   some [imageItem, imageItem]⟩

/-- The consolidated form of `issueImages`. -/
def issueImagesOut : Issue :=
  ⟨[("id", .str "iss-2"), ("ts", .str "2025-06-01T00:00:00Z"),
    ("consolidated", .bool true),
    ("consolidated_ts_original", .str "2024-01-15T10:30:00Z"),
    ("olr", .bool true)],
   some [imageItem, imageItem]⟩

/-- An issue that already carries `olr=false` although its content items
contain an article. -/
def issueOlrFalse : Issue :=
  ⟨[("id", .str "iss-3"), ("olr", .bool false), ("ts", .str "2024-01-15T10:30:00Z")],
   some [articleOnlyItem]⟩

/-- The consolidated form of `issueOlrFalse`. -/
def issueOlrFalseOut : Issue :=
  ⟨[("id", .str "iss-3"), ("olr", .bool false), ("ts", .str "2025-06-01T00:00:00Z"),
    ("consolidated", .bool true),
    ("consolidated_ts_original", .str "2024-01-15T10:30:00Z")],
   some [articleOnlyItem]⟩

/-! ## Claims -/

/-- Claim C4: `ensure_iso8601_z` keeps a string matching the canonical
`YYYY-MM-DDTHH:MM:SSZ` pattern unchanged; reformats a string parseable as
`YYYY-MM-DD HH:MM:SS` (space separator, no zone) and otherwise one
parseable as `YYYY-MM-DDTHH:MM:SS` (no zone) into the Z form; returns
every other string unchanged; in particular `2024-01-15 10:30:00` maps to
`2024-01-15T10:30:00Z`. -/
theorem claim_C4_timestamp_normalization (s : String) :
    (matchesZPattern s = true → ensure_iso8601_z s = s) ∧
    (∀ dt, matchesZPattern s = false → strptimeSpace s = some dt →
      ensure_iso8601_z s = formatZ dt) ∧
    (∀ dt, matchesZPattern s = false → strptimeSpace s = none →
      strptimeT s = some dt → ensure_iso8601_z s = formatZ dt) ∧
    (matchesZPattern s = false → strptimeSpace s = none → strptimeT s = none →
      ensure_iso8601_z s = s) ∧
    ensure_iso8601_z "2024-01-15 10:30:00" = "2024-01-15T10:30:00Z" := by
  refine ⟨?_, ?_, ?_, ?_, by decide⟩
  · intro h
    by_cases hs : s = ""
    · simp [ensure_iso8601_z, hs]
    · simp [ensure_iso8601_z, hs, h]
  · intro dt h hp
    have hs : s ≠ "" := by
      intro hh
      have hnone : strptimeSpace "" = none := by decide
      rw [hh, hnone] at hp
      exact Option.noConfusion hp
    simp [ensure_iso8601_z, hs, h, hp]
  · intro dt h hp ht
    have hs : s ≠ "" := by
      intro hh
      have hnone : strptimeT "" = none := by decide
      rw [hh, hnone] at ht
      exact Option.noConfusion ht
    simp [ensure_iso8601_z, hs, h, hp, ht]
  · intro h hp ht
    by_cases hs : s = ""
    · simp [ensure_iso8601_z, hs]
    · simp [ensure_iso8601_z, hs, h, hp, ht]

/-- Witness for claim C4 at the spec's three remaining round-trip
examples. -/
theorem claim_C4_witness :
    ensure_iso8601_z "2024-01-15T10:30:00Z" = "2024-01-15T10:30:00Z" ∧
    ensure_iso8601_z "2024-01-15T10:30:00" = "2024-01-15T10:30:00Z" ∧
    ensure_iso8601_z "January 15" = "January 15" :=
  ⟨(claim_C4_timestamp_normalization "2024-01-15T10:30:00Z").1 (by decide),
   ((claim_C4_timestamp_normalization "2024-01-15T10:30:00").2.2.1
     ⟨2024, 1, 15, 10, 30, 0⟩ (by decide) (by decide) (by decide)).trans (by decide),
   (claim_C4_timestamp_normalization "January 15").2.2.2.1
     (by decide) (by decide) (by decide)⟩

/-- Counterexample to claim C2: the issue `issuePageArticle` has no
`olr` field and content items `[page, article]` in that order, yet
consolidation infers `olr=false`, not `olr=true`: the scan stops at the
page, which is seen first. -/
theorem claim_C2_counterexample :
    dGet issuePageArticle.fields "olr" = none ∧
    dGet pageOnlyItem.meta "tp" = some (.str "page") ∧
    dGet articleOnlyItem.meta "tp" = some (.str "article") ∧
    (process_issue "run-1" "2025-06-01T00:00:00Z" [] issuePageArticle).map
      (fun iss => dGet iss.fields "olr") = .ok (some (.bool false)) := by
  refine ⟨by decide, by decide, by decide, ?_⟩
  decide

/-- Claim C2 (amended): for an issue lacking `olr` whose first content
item has type `page`, consolidation infers `olr=false` — the scan stops
at the first item of type `page` or `article`, so the page seen first
determines the flag even when an article follows later in the
sequence. -/
theorem claim_C2_amended_first_page_wins (runId nowTs : String) (enr : EnrichIndex)
    (iss iss' : Issue) (ci : ContentItem) (rest : List ContentItem)
    (hitems : iss.contentItems = ci :: rest)
    (htp : dGet ci.meta "tp" = some (.str "page"))
    (holr : dGet iss.fields "olr" = none)
    (h : process_issue runId nowTs enr iss = .ok iss') :
    dGet iss'.fields "olr" = some (.bool false) := by
  obtain ⟨os, items', -, -, hshape⟩ :=
    process_ok_shape .flexible runId nowTs enr iss iss' h
  have holr2 : dGet (issueFieldsAfterTs nowTs os (pruneIssue iss.fields)) "olr" = none := by
    rw [dGet_tsSteps _ _ _ _ (by decide) (by decide) (by decide) (by decide) (by decide)]
    exact holr
  rw [hshape]
  show dGet (olrStep iss.contentItems
    (issueFieldsAfterTs nowTs os (pruneIssue iss.fields))) "olr" = _
  rw [dGet_olrStep_absent _ _ holr2, hitems]
  simp [olrInfer, olrFlags, htp]

/-- Witness for the amended claim C2 at the `[page, article]` issue. -/
theorem claim_C2_amended_witness :
    dGet issuePageArticleOut.fields "olr" = some (.bool false) :=
  claim_C2_amended_first_page_wins "run-1" "2025-06-01T00:00:00Z" []
    issuePageArticle issuePageArticleOut pageOnlyItem [articleOnlyItem]
    (by decide) (by decide) (by decide) (by decide)

set_option maxHeartbeats 2000000 in
/-- Claim C3: for an issue without `olr`, consolidation stores the value
of the spec's first-match scan (first `article` gives true, first `page`
gives false, default true); an issue already carrying `olr` keeps its
value unchanged regardless of content items. -/
theorem claim_C3_olr_inference (runId nowTs : String) (enr : EnrichIndex)
    (iss iss' : Issue) (h : process_issue runId nowTs enr iss = .ok iss') :
    (dGet iss.fields "olr" = none →
      dGet iss'.fields "olr" = some (.bool (olrSpec iss.contentItems))) ∧
    (∀ v, dGet iss.fields "olr" = some v → dGet iss'.fields "olr" = some v) := by
  obtain ⟨os, items', -, -, hshape⟩ :=
    process_ok_shape .flexible runId nowTs enr iss iss' h
  constructor
  · intro holr
    have holr2 : dGet (issueFieldsAfterTs nowTs os (pruneIssue iss.fields)) "olr" = none := by
      rw [dGet_tsSteps _ _ _ _ (by decide) (by decide) (by decide) (by decide) (by decide)]
      exact holr
    rw [hshape]
    show dGet (olrStep iss.contentItems
      (issueFieldsAfterTs nowTs os (pruneIssue iss.fields))) "olr" = _
    rw [dGet_olrStep_absent _ _ holr2, olrInfer_eq_olrSpec]
  · intro v hv
    have hv2 : dGet (issueFieldsAfterTs nowTs os (pruneIssue iss.fields)) "olr" = some v := by
      rw [dGet_tsSteps _ _ _ _ (by decide) (by decide) (by decide) (by decide) (by decide)]
      exact hv
    rw [hshape]
    show dGet (olrStep iss.contentItems
        (issueFieldsAfterTs nowTs os (pruneIssue iss.fields))) "olr" = some v
    exact dGet_olrStep_present _ _ _ hv2

/-- Witness for claim C3: an `[image, image]` issue gets the default
`olr=true`; an issue already carrying `olr=false` keeps it although it
contains an article. -/
theorem claim_C3_witness :
    dGet issueImagesOut.fields "olr" = some (.bool true) ∧
    dGet issueOlrFalseOut.fields "olr" = some (.bool false) :=
  ⟨((claim_C3_olr_inference "run-1" "2025-06-01T00:00:00Z" [] issueImages
      issueImagesOut (by decide)).1 (by decide)).trans (by decide),
   (claim_C3_olr_inference "run-1" "2025-06-01T00:00:00Z" [] issueOlrFalse
      issueOlrFalseOut (by decide)).2 (.bool false) (by decide)⟩

/-- An issue carrying neither `ts` nor `cdt`. -/
def issueNoTimestamps : Issue := ⟨[("id", .str "iss-4")], none⟩

/-- An issue whose timestamp lives only in the fallback `cdt` field. -/
def issueCdtOnly : Issue :=
  ⟨[("id", .str "iss-5"), ("cdt", .str "2024-01-15 10:30:00")], some []⟩

/-- The consolidated form of `issueCdtOnly`. -/
def issueCdtOnlyOut : Issue :=
  ⟨[("id", .str "iss-5"), ("consolidated", .bool true),
    ("consolidated_ts_original", .str "2024-01-15T10:30:00Z"),
    ("ts", .str "2025-06-01T00:00:00Z"), ("olr", .bool true)],
   some []⟩

/-- An issue whose `ts` field is present but null, with a `cdt`
fallback. -/
def issueTsNull : Issue :=
  ⟨[("id", .str "iss-10"), ("ts", .null), ("cdt", .str "2024-01-15 10:30:00")], none⟩

/-- The consolidated form of `issueTsNull`. -/
def issueTsNullOut : Issue :=
  ⟨[("id", .str "iss-10"), ("ts", .str "2025-06-01T00:00:00Z"),
    ("consolidated", .bool true),
    ("consolidated_ts_original", .str "2024-01-15T10:30:00Z"),
    ("olr", .bool true)],
   none⟩

/-- An issue whose `ts` is present but the empty string, with no `cdt`. -/
def issueTsEmpty : Issue := ⟨[("id", .str "iss-11"), ("ts", .str "")], none⟩

set_option maxHeartbeats 2000000 in
/-- Claim C5: the original timestamp prefers `ts` and falls back to
`cdt`; when neither is available the run fails with the
missing-required-field error; on success the consolidated flag is set,
the normalized original timestamp is preserved, `ts` is overwritten with
the processing time, and `cdt` is removed. -/
theorem claim_C5_timestamp_bookkeeping (runId nowTs : String) (enr : EnrichIndex)
    (iss : Issue) :
    (truthy (dGet iss.fields "ts") = false → truthy (dGet iss.fields "cdt") = false →
      process_issue runId nowTs enr iss = .error (.missingRequiredField tsField)) ∧
    (∀ v, dGet iss.fields "ts" = some v → truthyV v = true →
      origTimestamp (pruneIssue iss.fields) = some v) ∧
    (∀ v, truthy (dGet iss.fields "ts") = false → dGet iss.fields "cdt" = some v →
      truthyV v = true → origTimestamp (pruneIssue iss.fields) = some v) ∧
    (∀ iss', process_issue runId nowTs enr iss = .ok iss' →
      ∃ s, origTimestamp (pruneIssue iss.fields) = some (.str s) ∧
        dGet iss'.fields "consolidated" = some (.bool true) ∧
        dGet iss'.fields "consolidated_ts_original" = some (.str (ensure_iso8601_z s)) ∧
        dGet iss'.fields "ts" = some (.str nowTs) ∧
        dGet iss'.fields "cdt" = none) := by
  have hts : dGet (pruneIssue iss.fields) "ts" = dGet iss.fields "ts" := by
    rw [pruneIssue, dGet_pruneFields_ne _ _ _ (by decide)]
  have hcdt : dGet (pruneIssue iss.fields) "cdt" = dGet iss.fields "cdt" := by
    rw [pruneIssue, dGet_pruneFields_ne _ _ _ (by decide)]
  refine ⟨?_, ?_, ?_, ?_⟩
  · intro h1 h2
    have hnone : origTimestamp (pruneIssue iss.fields) = none := by
      rw [origTimestamp_none_iff, hts, hcdt]
      exact ⟨h1, h2⟩
    simp [process_issue, process_issue_p, hnone]
  · intro v hv ht
    exact origTimestamp_ts _ v (hts.trans hv) ht
  · intro v h1 h2 ht
    exact origTimestamp_cdt _ v (by rw [hts]; exact h1) (hcdt.trans h2) ht
  · intro iss' h
    obtain ⟨os, items', horig, -, hshape⟩ :=
      process_ok_shape .flexible runId nowTs enr iss iss' h
    refine ⟨os, horig, ?_, ?_, ?_, ?_⟩
    · rw [hshape]
      show dGet (olrStep iss.contentItems
        (issueFieldsAfterTs nowTs os (pruneIssue iss.fields))) "consolidated" = _
      rw [dGet_olrStep_ne _ _ _ (by decide)]
      exact dGet_issueFieldsAfterTs_consolidated _ _ _
    · rw [hshape]
      show dGet (olrStep iss.contentItems
        (issueFieldsAfterTs nowTs os (pruneIssue iss.fields)))
        "consolidated_ts_original" = _
      rw [dGet_olrStep_ne _ _ _ (by decide)]
      exact dGet_issueFieldsAfterTs_tsOriginal _ _ _
    · rw [hshape]
      show dGet (olrStep iss.contentItems
        (issueFieldsAfterTs nowTs os (pruneIssue iss.fields))) "ts" = _
      rw [dGet_olrStep_ne _ _ _ (by decide)]
      exact dGet_issueFieldsAfterTs_ts _ _ _
    · rw [hshape]
      show dGet (olrStep iss.contentItems
        (issueFieldsAfterTs nowTs os (pruneIssue iss.fields))) "cdt" = none
      rw [dGet_olrStep_ne _ _ _ (by decide)]
      exact dGet_issueFieldsAfterTs_cdt _ _ _

/-- Witness for claim C5: an issue with neither timestamp field fails;
a `cdt`-only issue succeeds with the normalized original preserved,
`ts` refreshed and `cdt` dropped. -/
theorem claim_C5_witness :
    process_issue "run-1" "2025-06-01T00:00:00Z" [] issueNoTimestamps =
      .error (.missingRequiredField tsField) ∧
    dGet issueCdtOnlyOut.fields "consolidated" = some (.bool true) ∧
    dGet issueCdtOnlyOut.fields "consolidated_ts_original" =
      some (.str "2024-01-15T10:30:00Z") ∧
    dGet issueCdtOnlyOut.fields "ts" = some (.str "2025-06-01T00:00:00Z") ∧
    dGet issueCdtOnlyOut.fields "cdt" = none := by
  obtain ⟨s, hs, h1, h2, h3, h4⟩ :=
    (claim_C5_timestamp_bookkeeping "run-1" "2025-06-01T00:00:00Z" []
      issueCdtOnly).2.2.2 issueCdtOnlyOut (by decide)
  have hsv : s = "2024-01-15 10:30:00" := by
    have h0 : origTimestamp (pruneIssue issueCdtOnly.fields) =
        some (.str "2024-01-15 10:30:00") := by decide
    rw [h0] at hs
    exact (JValue.str.inj (Option.some.inj hs)).symm
  refine ⟨(claim_C5_timestamp_bookkeeping "run-1" "2025-06-01T00:00:00Z" []
    issueNoTimestamps).1 (by decide) (by decide), h1, ?_, h3, h4⟩
  rw [hsv] at h2
  exact h2.trans (by decide)

set_option maxHeartbeats 2000000 in
/-- Claim C10: the preference between `ts` and `cdt` is decided by the
truthiness of the value, not the presence of the key: a present-but-falsy
`ts` falls back to `cdt`, and the missing-timestamp error occurs exactly
when both values are absent or falsy. -/
theorem claim_C10_timestamp_truthiness (runId nowTs : String) (enr : EnrichIndex)
    (iss : Issue) :
    (∀ tv s, dGet iss.fields "ts" = some tv → truthyV tv = false →
      dGet iss.fields "cdt" = some (.str s) → s ≠ "" →
      ∀ iss', process_issue runId nowTs enr iss = .ok iss' →
        dGet iss'.fields "consolidated_ts_original" =
          some (.str (ensure_iso8601_z s))) ∧
    (process_issue runId nowTs enr iss = .error (.missingRequiredField tsField) ↔
      truthy (dGet iss.fields "ts") = false ∧ truthy (dGet iss.fields "cdt") = false) := by
  have hts : dGet (pruneIssue iss.fields) "ts" = dGet iss.fields "ts" := by
    rw [pruneIssue, dGet_pruneFields_ne _ _ _ (by decide)]
  have hcdt : dGet (pruneIssue iss.fields) "cdt" = dGet iss.fields "cdt" := by
    rw [pruneIssue, dGet_pruneFields_ne _ _ _ (by decide)]
  constructor
  · intro tv s htv hfalsy hcs hne iss' h
    have horig : origTimestamp (pruneIssue iss.fields) = some (.str s) := by
      refine origTimestamp_cdt _ _ ?_ (hcdt.trans hcs) ?_
      · rw [hts, htv]
        exact hfalsy
      · simpa [truthyV] using hne
    obtain ⟨os, items', horig', -, hshape⟩ :=
      process_ok_shape .flexible runId nowTs enr iss iss' h
    have hos : os = s := by
      rw [horig] at horig'
      exact (JValue.str.inj (Option.some.inj horig')).symm
    subst hos
    rw [hshape]
    show dGet (olrStep iss.contentItems
      (issueFieldsAfterTs nowTs os (pruneIssue iss.fields)))
      "consolidated_ts_original" = _
    rw [dGet_olrStep_ne _ _ _ (by decide)]
    exact dGet_issueFieldsAfterTs_tsOriginal _ _ _
  · constructor
    · intro h
      by_contra hcon
      have hsome : origTimestamp (pruneIssue iss.fields) ≠ none := by
        intro hnone
        rw [origTimestamp_none_iff, hts, hcdt] at hnone
        exact hcon hnone
      match horig : origTimestamp (pruneIssue iss.fields) with
      | none => exact hsome horig
      | some ov =>
        simp only [process_issue, process_issue_p, horig] at h
        match ov with
        | .str os =>
          simp only at h
          match hdeleg : consolidateItems_p .flexible runId enr iss.contentItems with
          | .error e =>
            rw [hdeleg] at h
            have he : e = .missingRequiredField tsField := Except.error.inj h
            rcases consolidateItems_error_shape _ _ _ _ _ hdeleg with h1 | h1 <;>
              rw [h1] at he <;> exact absurd he (by decide)
          | .ok items' => rw [hdeleg] at h; exact Except.noConfusion h
        | .null => exact absurd (Except.error.inj h) (by decide)
        | .bool b => exact absurd (Except.error.inj h) (by decide)
        | .num q => exact absurd (Except.error.inj h) (by decide)
    · intro ⟨h1, h2⟩
      have hnone : origTimestamp (pruneIssue iss.fields) = none := by
        rw [origTimestamp_none_iff, hts, hcdt]
        exact ⟨h1, h2⟩
      simp [process_issue, process_issue_p, hnone]

/-- Witness for claim C10: an issue with `ts` null and `cdt` set is
consolidated from `cdt`; an issue with `ts` present but empty and no
`cdt` fails with the missing-timestamp error. -/
theorem claim_C10_witness :
    dGet issueTsNullOut.fields "consolidated_ts_original" =
      some (.str "2024-01-15T10:30:00Z") ∧
    process_issue "run-1" "2025-06-01T00:00:00Z" [] issueTsEmpty =
      .error (.missingRequiredField tsField) :=
  ⟨((claim_C10_timestamp_truthiness "run-1" "2025-06-01T00:00:00Z" []
      issueTsNull).1 .null "2024-01-15 10:30:00" (by decide) (by decide)
      (by decide) (by decide) issueTsNullOut (by decide)).trans (by decide),
   ((claim_C10_timestamp_truthiness "run-1" "2025-06-01T00:00:00Z" []
      issueTsEmpty).2).mpr ⟨by decide, by decide⟩⟩

/-- A non-image content-item metadata mapping whose id has no enrichment
record, with a blank `t` field (to show only prune/rename happen). -/
def metaUnmatched : Metadata :=
  [("id", .str "ci-9"), ("tp", .str "article"), ("t", .str "  ")]

/-- Claim C6: under the flexible policy, consolidating a non-image
content item whose identifier has no enrichment record succeeds with
only the prune and rename passes applied — no consolidated field is
added and no error is raised. -/
theorem claim_C6_flexible_skip (runId : String) (enr : EnrichIndex) (m0 : Metadata)
    (idv : JValue) (hid : dGet m0 "id" = some idv) (ht : truthyV idv = true)
    (htp : dGet m0 "tp" ≠ some (.str "image"))
    (hmiss : dGet enr idv = none) :
    consolidate_content_item runId enr m0 = .ok (renameLg (pruneCI m0)) ∧
    (∀ k, k ∈ consolidatedKeys → dGet m0 k = none →
      dGet (renameLg (pruneCI m0)) k = none) := by
  have htp2 : dGet (renameLg (pruneCI m0)) "tp" = dGet m0 "tp" := by
    rw [dGet_renameLg_ne _ _ (by decide) (by decide) (by decide), pruneCI,
      dGet_pruneFields_ne _ _ _ (by decide)]
  have hcond : ¬ (dGet (renameLg (pruneCI m0)) "tp" = some (JValue.str "image")) := by
    rw [htp2]
    exact htp
  constructor
  · simp only [consolidate_content_item, consolidate_content_item_p, hid, ht, if_true]
    rw [if_neg hcond, hmiss]
  · intro k hk hnone
    simp only [consolidatedKeys, List.mem_cons, List.not_mem_nil, or_false] at hk
    rcases hk with rfl | rfl | rfl | rfl <;>
      rw [dGet_renameLg_ne _ _ (by decide) (by decide) (by decide), pruneCI,
        dGet_pruneFields_ne _ _ _ (by decide)] <;>
      exact hnone

/-- Witness for claim C6: the unmatched article metadata passes through
with its blank `t` pruned and nothing else changed. -/
theorem claim_C6_witness :
    consolidate_content_item "run-1" [] metaUnmatched =
      .ok [("id", .str "ci-9"), ("tp", .str "article")] ∧
    dGet (renameLg (pruneCI metaUnmatched)) "consolidated_lg" = none ∧
    dGet (renameLg (pruneCI metaUnmatched)) "consolidated_ocrqa" = none :=
  ⟨((claim_C6_flexible_skip "run-1" [] metaUnmatched (.str "ci-9")
      (by decide) (by decide) (by decide) (by decide)).1).trans (by decide),
   (claim_C6_flexible_skip "run-1" [] metaUnmatched (.str "ci-9")
      (by decide) (by decide) (by decide) (by decide)).2
      "consolidated_lg" (by decide) (by decide),
   (claim_C6_flexible_skip "run-1" [] metaUnmatched (.str "ci-9")
      (by decide) (by decide) (by decide) (by decide)).2
      "consolidated_ocrqa" (by decide) (by decide)⟩

/-- Claim C7: the language-key rename applies at most once: a present
`lg` is moved to `lg_original` (and removed); otherwise a present legacy
`l` is moved (and removed); otherwise the metadata is left unrenamed.
Renaming is idempotent when no `l` key lingers, and the full consolidator
on a metadata with `lg` and no `l` produces `lg_original` with no `lg`
key and re-consolidating changes nothing. -/
theorem claim_C7_language_rename :
    (∀ (m : Metadata) v, dGet m "lg" = some v →
      dGet (renameLg m) "lg_original" = some v ∧ dGet (renameLg m) "lg" = none) ∧
    (∀ (m : Metadata) v, dGet m "lg" = none → dGet m "l" = some v →
      dGet (renameLg m) "lg_original" = some v ∧ dGet (renameLg m) "l" = none) ∧
    (∀ m : Metadata, dGet m "lg" = none → dGet m "l" = none → renameLg m = m) ∧
    (∀ m : Metadata, dGet m "l" = none → renameLg (renameLg m) = renameLg m) ∧
    (consolidate_content_item "run-1" [] [("id", .str "ci-1"), ("lg", .str "en")] =
       .ok [("id", .str "ci-1"), ("lg_original", .str "en")] ∧
     consolidate_content_item "run-1" [] [("id", .str "ci-1"), ("lg_original", .str "en")] =
       .ok [("id", .str "ci-1"), ("lg_original", .str "en")]) := by
  refine ⟨?_, ?_, ?_, ?_, by decide, by decide⟩
  · intro m v h
    constructor
    · simp only [renameLg, h]
      rw [dGet_dSet_self]
    · simp only [renameLg, h]
      rw [dGet_dSet_ne _ _ _ _ (by decide), dGet_dDel_self]
  · intro m v h hl
    constructor
    · simp only [renameLg, h, hl]
      rw [dGet_dSet_self]
    · simp only [renameLg, h, hl]
      rw [dGet_dSet_ne _ _ _ _ (by decide), dGet_dDel_self]
  · intro m h hl
    simp [renameLg, h, hl]
  · intro m hl
    match hlg : dGet m "lg" with
    | some v =>
      have e1 : renameLg m = dSet (dDel m "lg") "lg_original" v := by
        simp [renameLg, hlg]
      have h1 : dGet (dSet (dDel m "lg") "lg_original" v) "lg" = none := by
        rw [dGet_dSet_ne _ _ _ _ (by decide), dGet_dDel_self]
      have h2 : dGet (dSet (dDel m "lg") "lg_original" v) "l" = none := by
        rw [dGet_dSet_ne _ _ _ _ (by decide), dGet_dDel_ne _ _ _ (by decide)]
        exact hl
      rw [e1]
      simp [renameLg, h1, h2]
    | none =>
      have e1 : renameLg m = m := by simp [renameLg, hlg, hl]
      rw [e1]
      exact e1

/-- Witness for claim C7 at concrete metadata mappings. -/
theorem claim_C7_witness :
    dGet (renameLg [("lg", .str "en"), ("pp", .num 3)]) "lg_original" =
      some (.str "en") ∧
    dGet (renameLg [("lg", .str "en"), ("pp", .num 3)]) "lg" = none ∧
    dGet (renameLg [("l", .str "de")]) "lg_original" = some (.str "de") ∧
    renameLg [("id", .str "z")] = [("id", .str "z")] ∧
    renameLg (renameLg [("lg", .str "en")]) = renameLg [("lg", .str "en")] :=
  ⟨(claim_C7_language_rename.1 [("lg", .str "en"), ("pp", .num 3)] (.str "en")
      (by decide)).1,
   (claim_C7_language_rename.1 [("lg", .str "en"), ("pp", .num 3)] (.str "en")
      (by decide)).2,
   (claim_C7_language_rename.2.1 [("l", .str "de")] (.str "de")
      (by decide) (by decide)).1,
   claim_C7_language_rename.2.2.1 [("id", .str "z")] (by decide) (by decide),
   claim_C7_language_rename.2.2.2.1 [("lg", .str "en")] (by decide)⟩

/-- An enrichment line for `ci-1` (earlier duplicate). -/
def enrLineDup1 : EnrichLine := ⟨[("id", .str "ci-1"), ("lg", .str "de")], none⟩

/-- A later enrichment line for the same `ci-1`. -/
def enrLineDup2 : EnrichLine :=
  ⟨[("id", .str "ci-1"), ("lg", .str "fr"), ("ocrqa", .num 1)], none⟩

/-- An enrichment line for a different identifier. -/
def enrLineOther : EnrichLine := ⟨[("id", .str "ci-2"), ("lg", .str "en")], none⟩

/-- Claim C8: when an identifier repeats in the enrichment stream, the
index maps it to the record of the last line carrying it
(last-write-wins), with no uniqueness error at load time. -/
theorem claim_C8_last_write_wins (pre post : List EnrichLine) (ln : EnrichLine)
    (idx : EnrichIndex) (idv : JValue)
    (hload : load_enrichments (pre ++ ln :: post) = .ok idx)
    (hid : dGet ln.fields "id" = some idv)
    (hpost : ∀ ln2 ∈ post, dGet ln2.fields "id" ≠ some idv) :
    dGet idx idv = some (mkEnrichment ln) := by
  unfold load_enrichments at hload
  rw [load_enrichments_from_append] at hload
  match hpre : load_enrichments_from [] pre with
  | .error e => rw [hpre] at hload; exact Except.noConfusion hload
  | .ok acc =>
    rw [hpre] at hload
    have hload2 : load_enrichments_from acc (ln :: post) = Except.ok idx := hload
    rw [load_enrichments_from_cons, hid] at hload2
    have hload3 : (if truthyV idv = true then
        load_enrichments_from (dSet acc idv (mkEnrichment ln)) post
      else Except.error (ProcError.missingRequiredField enrichIdField)) =
        Except.ok idx := hload2
    by_cases ht : truthyV idv = true
    · rw [if_pos ht] at hload3
      rw [load_enrichments_from_untouched post _ idx idv hload3 hpost, dGet_dSet_self]
    · rw [if_neg ht] at hload3
      exact Except.noConfusion hload3

/-- Witness for claim C8: a stream where `ci-1` appears twice loads
without error and keeps the later record. -/
theorem claim_C8_witness :
    load_enrichments [enrLineDup1, enrLineDup2, enrLineOther] =
      .ok [(JValue.str "ci-1", mkEnrichment enrLineDup2),
           (JValue.str "ci-2", mkEnrichment enrLineOther)] ∧
    dGet [(JValue.str "ci-1", mkEnrichment enrLineDup2),
          (JValue.str "ci-2", mkEnrichment enrLineOther)] (JValue.str "ci-1") =
      some (mkEnrichment enrLineDup2) :=
  ⟨by decide,
   claim_C8_last_write_wins [enrLineDup1] [enrLineOther] enrLineDup2
     [(JValue.str "ci-1", mkEnrichment enrLineDup2),
      (JValue.str "ci-2", mkEnrichment enrLineOther)]
     (JValue.str "ci-1") (by decide) (by decide) (by decide)⟩

/-- A content item whose metadata mapping is present but empty (and in
particular lacks an identifier). -/
def emptyMetaItem : ContentItem := ⟨some []⟩

/-- An issue whose only content item has an empty metadata mapping. -/
def issueEmptyMetaItem : Issue :=
  ⟨[("id", .str "iss-9"), ("ts", .str "2024-01-15T10:30:00Z")], some [emptyMetaItem]⟩

/-- The consolidated form of `issueEmptyMetaItem` — the run succeeds. -/
def issueEmptyMetaItemOut : Issue :=
  ⟨[("id", .str "iss-9"), ("ts", .str "2025-06-01T00:00:00Z"),
    ("consolidated", .bool true),
    ("consolidated_ts_original", .str "2024-01-15T10:30:00Z"),
    ("olr", .bool true)],
   some [emptyMetaItem]⟩

/-- Counterexample to claim C9: the issue `issueEmptyMetaItem` contains a
content item whose metadata lacks an identifier, yet consolidation
succeeds — the delegation loop skips items whose metadata mapping is
empty, so not every content item's metadata reaches the consolidator and
the missing-identifier failure never fires for this issue. -/
theorem claim_C9_counterexample :
    dGet emptyMetaItem.meta "id" = none ∧
    issueEmptyMetaItem.contentItems = [emptyMetaItem] ∧
    process_issue "run-1" "2025-06-01T00:00:00Z" [] issueEmptyMetaItem =
      .ok issueEmptyMetaItemOut := by
  refine ⟨by decide, by decide, by decide⟩

/-- Claim C9 (amended): issue consolidation delegates every content
item's non-empty metadata mapping to the content-item consolidator —
items whose mapping is absent or empty are passed through untouched
without delegation — and consolidating a metadata mapping that lacks an
identifier fails the run with the missing-required-field error. -/
theorem claim_C9_amended_delegation (runId nowTs : String) (enr : EnrichIndex) :
    (∀ m0 : Metadata, dGet m0 "id" = none →
      consolidate_content_item runId enr m0 = .error (.missingRequiredField idField)) ∧
    (∀ iss iss', process_issue runId nowTs enr iss = .ok iss' →
      List.Forall₂ (fun ci ci' =>
        (ci.meta = [] ∧ ci' = ci) ∨
        (ci.meta ≠ [] ∧ ∃ m', consolidate_content_item runId enr ci.meta = .ok m' ∧
          ci' = ContentItem.mk (some m'))) iss.contentItems iss'.contentItems) := by
  constructor
  · intro m0 h
    simp [consolidate_content_item, consolidate_content_item_p, h]
  · intro iss iss' h
    obtain ⟨os, items', -, hdeleg, hshape⟩ :=
      process_ok_shape .flexible runId nowTs enr iss iss' h
    have hfa := consolidateItems_ok_shape .flexible runId enr iss.contentItems items' hdeleg
    rw [hshape]
    match hii : iss.items with
    | none =>
      have hci : iss.contentItems = [] := by simp [Issue.contentItems, hii]
      rw [hci]
      exact List.Forall₂.nil
    | some l =>
      exact hfa

/-- Witness for the amended claim C9: a metadata mapping without `id`
fails the consolidator, and a processed issue's items stand in the
delegation relation to the originals. -/
theorem claim_C9_witness :
    consolidate_content_item "run-1" [] [("tp", .str "ad")] =
      .error (.missingRequiredField idField) ∧
    List.Forall₂ (fun ci ci' =>
      (ci.meta = [] ∧ ci' = ci) ∨
      (ci.meta ≠ [] ∧ ∃ m', consolidate_content_item "run-1" [] ci.meta = .ok m' ∧
        ci' = ContentItem.mk (some m'))) issueImages.contentItems
      issueImagesOut.contentItems :=
  ⟨(claim_C9_amended_delegation "run-1" "2025-06-01T00:00:00Z" []).1
     [("tp", .str "ad")] (by decide),
   (claim_C9_amended_delegation "run-1" "2025-06-01T00:00:00Z" []).2
     issueImages issueImagesOut (by decide)⟩

/-- Aborting the issue loop: a failing issue contributes no output line
and leaves only the lines of the issues before it. -/
theorem driveIssues_aborts (step : Issue → Except ProcError Issue)
    (pre : List Issue) (outs : List Issue) (iss : Issue) (post : List Issue)
    (e : ProcError) (h1 : driveIssues step pre = (outs, none))
    (h2 : step iss = .error e) :
    driveIssues step (pre ++ iss :: post) = (outs, some e) := by
  induction pre generalizing outs with
  | nil =>
    have houts : outs = [] := by
      have := congrArg Prod.fst h1
      simpa [driveIssues] using this.symm
    subst houts
    show driveIssues step (iss :: post) = ([], some e)
    unfold driveIssues
    rw [h2]
  | cons x xs ih =>
    unfold driveIssues at h1
    match hx : step x with
    | .error e' =>
      rw [hx] at h1
      have := congrArg Prod.snd h1
      simp at this
    | .ok y =>
      rw [hx] at h1
      have hfst := congrArg Prod.fst h1
      have hsnd := congrArg Prod.snd h1
      simp only at hfst hsnd
      have hxs : driveIssues step xs = ((driveIssues step xs).1, none) := by
        rw [← hsnd]
      rw [List.cons_append]
      show (match step x with
        | .error e => ([], some e)
        | .ok out =>
          let r := driveIssues step (xs ++ iss :: post)
          (out :: r.1, r.2)) = (outs, some e)
      rw [hx, ih _ hxs]
      rw [← hfst]

/-- Claim C1 (spec-modelled strict policy; the strict variant is not part
of `src/`): under strict matching, a non-image content item with a truthy
identifier absent from the enrichment index fails with the
MissingEnrichment error, and an issue whose consolidation fails
contributes no output line while the run exits non-zero, keeping only the
lines written before it. -/
theorem claim_C1_strict_missing_enrichment (runId nowTs : String) (enr : EnrichIndex) :
    (∀ m0 idv, dGet m0 "id" = some idv → truthyV idv = true →
      dGet m0 "tp" ≠ some (.str "image") → dGet enr idv = none →
      consolidate_content_item_p .strict runId enr m0 = .error .missingEnrichment) ∧
    (∀ pre outs iss post e,
      driveIssues (process_issue_p .strict runId nowTs enr) pre = (outs, none) →
      process_issue_p .strict runId nowTs enr iss = .error e →
      driveIssues (process_issue_p .strict runId nowTs enr) (pre ++ iss :: post) =
        (outs, some e) ∧ exitCode (some e) ≠ 0) := by
  constructor
  · intro m0 idv hid ht htp hmiss
    have htp2 : dGet (renameLg (pruneCI m0)) "tp" = dGet m0 "tp" := by
      rw [dGet_renameLg_ne _ _ (by decide) (by decide) (by decide), pruneCI,
        dGet_pruneFields_ne _ _ _ (by decide)]
    have hcond : ¬ (dGet (renameLg (pruneCI m0)) "tp" = some (JValue.str "image")) := by
      rw [htp2]
      exact htp
    simp only [consolidate_content_item_p, hid, ht, if_true]
    rw [if_neg hcond, hmiss]
  · intro pre outs iss post e h1 h2
    exact ⟨driveIssues_aborts _ pre outs iss post e h1 h2, by simp [exitCode]⟩

/-- A content item whose identifier has no record in the strict-run
index. -/
def metaNoEnrich : Metadata := [("id", .str "ci-404"), ("tp", .str "article")]

/-- An issue containing only that unmatched content item. -/
def issueStrictMiss : Issue :=
  ⟨[("id", .str "iss-s"), ("ts", .str "2024-01-15T10:30:00Z")],
   some [⟨some metaNoEnrich⟩]⟩

/-- Witness for claim C1: with an index holding only `ci-2`, strict
consolidation of `ci-404` fails with MissingEnrichment, the one-issue
stream produces no output line, and the exit code is non-zero. -/
theorem claim_C1_witness :
    consolidate_content_item_p .strict "run-1" [(.str "ci-2", mkEnrichment enrLineOther)]
      metaNoEnrich = .error .missingEnrichment ∧
    driveIssues (process_issue_p .strict "run-1" "2025-06-01T00:00:00Z"
      [(.str "ci-2", mkEnrichment enrLineOther)]) [issueStrictMiss] =
      ([], some .missingEnrichment) ∧
    exitCode (some .missingEnrichment) ≠ 0 := by
  have h := claim_C1_strict_missing_enrichment "run-1" "2025-06-01T00:00:00Z"
    [(.str "ci-2", mkEnrichment enrLineOther)]
  refine ⟨h.1 metaNoEnrich (.str "ci-404") (by decide) (by decide) (by decide) (by decide),
    ?_, by decide⟩
  exact (h.2 [] [] issueStrictMiss [] .missingEnrichment (by decide) (by decide)).1

end CCook
